import Mathlib

/-!
Verification of the codebase-knowledge pipeline: a shallow embedding of the
structural analyzer (src/utils/analyze_file_structure.py) and of the
reasoning-backed pipeline stages (src/nodes/analysis.py,
src/nodes/relationships.py), together with theorems settling the spec claims.

Python dictionaries are modelled as insertion-ordered association lists,
Python sets as insertion-ordered duplicate-free lists, Python ints as Int,
and raising code as Except-valued functions.  All definitions are
structural recursions so that concrete inputs evaluate inside the kernel.
-/

/-! ### Character-level string primitives (Python semantics, structural) -/

/-- Python whitespace class for the regex patterns in the analyzer. -/
def isPyWs (c : Char) : Bool :=
  c == ' ' || c == '\t' || c == '\n' || c == '\r' ||
    c == Char.ofNat 11 || c == Char.ofNat 12

/-- First character of a Python identifier: underscore or ASCII letter. -/
def isIdentStart (c : Char) : Bool := c.isAlpha || c == '_'

/-- Later character of a Python identifier. -/
def isIdentChar (c : Char) : Bool := c.isAlphanum || c == '_'

/-- Does the second list start with the first one? -/
def listStartsWith : List Char → List Char → Bool
  | [], _ => true
  | _ :: _, [] => false
  | p :: ps, c :: cs => p == c && listStartsWith ps cs

/-- Occurrence test: does s contain pat as a contiguous substring? -/
def containsSub (pat : List Char) : List Char → Bool
  | [] => listStartsWith pat []
  | c :: cs => listStartsWith pat (c :: cs) || containsSub pat cs

/-- Python `pat in s` on strings. -/
def strContains (s pat : String) : Bool := containsSub pat.toList s.toList

/-- Fuel-indexed body of Python str.replace: replace every non-overlapping
occurrence of a (non-empty) pattern, scanning left to right. -/
def replaceFuel (pat rep : List Char) : Nat → List Char → List Char
  | 0, s => s
  | fuel + 1, s =>
    match s with
    | [] => []
    | c :: cs =>
      if pat ≠ [] ∧ listStartsWith pat s then
        rep ++ replaceFuel pat rep fuel (List.drop pat.length s)
      else c :: replaceFuel pat rep fuel cs

/-- Python str.replace (for the non-empty patterns used by the analyzer). -/
def pyReplace (s pat rep : String) : String :=
  String.mk (replaceFuel pat.toList rep.toList s.toList.length s.toList)

/-- Split a character list on a separator character, Python str.split style
(keeps empty segments, always returns at least one segment). -/
def splitOnCharAux (sep : Char) : List Char → List Char → List (List Char)
  | acc, [] => [acc.reverse]
  | acc, c :: cs =>
    if c == sep then acc.reverse :: splitOnCharAux sep [] cs
    else splitOnCharAux sep (c :: acc) cs

/-- Index of the last occurrence of a character, Python str.rfind style. -/
def lastIdxOfAux (c : Char) : List Char → Nat → Option Nat → Option Nat
  | [], _, best => best
  | x :: xs, i, best => lastIdxOfAux c xs (i + 1) (if x == c then some i else best)

/-- Index of the last occurrence of a character, if any. -/
def lastIdxOf (c : Char) (cs : List Char) : Option Nat := lastIdxOfAux c cs 0 none

/-- os.path.basename on POSIX: everything after the last slash. -/
def pyBasename (p : String) : String :=
  match lastIdxOf '/' p.toList with
  | none => p
  | some i => String.mk (p.toList.drop (i + 1))

/-- os.path.dirname on POSIX: everything before the last slash, with
trailing slashes stripped unless the head is all slashes. -/
def pyDirname (p : String) : String :=
  let cs := p.toList
  match lastIdxOf '/' cs with
  | none => ""
  | some i =>
    let head := cs.take (i + 1)
    if head.all (fun c => c == '/') then String.mk head
    else String.mk ((head.reverse.dropWhile (fun c => c == '/')).reverse)

/-- os.path.splitext on POSIX: split off the extension at the last dot of
the final path component, unless that component consists only of leading
dots up to that point. -/
def pySplitExt (p : String) : String × String :=
  let cs := p.toList
  let sepIdx : Int := match lastIdxOf '/' cs with | none => -1 | some i => (i : Int)
  match lastIdxOf '.' cs with
  | none => (p, "")
  | some d =>
    if sepIdx < (d : Int) then
      let fnameStart := (sepIdx + 1).toNat
      if ((cs.drop fnameStart).take (d - fnameStart)).any (fun c => c ≠ '.') then
        (String.mk (cs.take d), String.mk (cs.drop d))
      else (p, "")
    else (p, "")

/-- ASCII lower-casing of one character (Python str.lower on the
ASCII-only names the analyzer handles). -/
def pyLowerChar (c : Char) : Char :=
  if 'A' ≤ c ∧ c ≤ 'Z' then Char.ofNat (c.toNat + 32) else c

/-- Python str.lower. -/
def pyLower (s : String) : String := String.mk (s.toList.map pyLowerChar)

/-- Python len(content.splitlines()) for newline-separated text. -/
def pyLineCount (content : String) : Nat :=
  if content = "" then 0
  else
    let parts := splitOnCharAux '\n' [] content.toList
    match parts.getLast? with
    | some [] => parts.length - 1
    | _ => parts.length

/-- Insertion into a Python set modelled as a duplicate-free list that
remembers insertion order. -/
def setInsert (s : List String) (x : String) : List String :=
  if x ∈ s then s else s ++ [x]

/-- set.update: insert many elements in order. -/
def setUnionL (s : List String) (xs : List String) : List String :=
  xs.foldl setInsert s

/-! ### The two line-anchored regex patterns of analyze_python_regex -/

/-- Drop the leading whitespace a `\s*` consumes. -/
def skipWs (cs : List Char) : List Char := cs.dropWhile (fun c => isPyWs c)

/-- Match a Python identifier at the head of the list, returning it and the
rest (the regex piece `[a-zA-Z_][a-zA-Z0-9_]*`). -/
def takeIdent : List Char → Option (List Char × List Char)
  | [] => none
  | c :: cs =>
    if isIdentStart c then
      some (c :: cs.takeWhile isIdentChar, cs.dropWhile isIdentChar)
    else none

/-- Greedily extend an identifier with `(\.[a-zA-Z_][a-zA-Z0-9_]*)*`. -/
def takeDottedAux : Nat → List Char → List Char → (List Char × List Char)
  | 0, acc, rest => (acc, rest)
  | fuel + 1, acc, rest =>
    match rest with
    | '.' :: cs =>
      match takeIdent cs with
      | some (id, rest2) => takeDottedAux fuel (acc ++ '.' :: id) rest2
      | none => (acc, rest)
    | _ => (acc, rest)

/-- Match a dotted module name at the head of the list. -/
def takeDotted (s : List Char) : Option (List Char × List Char) :=
  match takeIdent s with
  | none => none
  | some (id, rest) => some (takeDottedAux rest.length id rest)

/-- Match one line against `^\s*kw\s+([a-zA-Z_][a-zA-Z0-9_]*)` and return
the captured identifier. -/
def lineKwIdent (kw : String) (line : List Char) : Option String :=
  let s := skipWs line
  if listStartsWith kw.toList s then
    match s.drop kw.toList.length with
    | [] => none
    | c :: cs =>
      if isPyWs c then
        match takeIdent (skipWs (c :: cs)) with
        | some (id, _) => some (String.mk id)
        | none => none
      else none
  else none

/-- Match one line against `^\s*kw\s+(dotted)` and return the captured
dotted module name. -/
def lineKwDotted (kw : String) (line : List Char) : Option String :=
  let s := skipWs line
  if listStartsWith kw.toList s then
    match s.drop kw.toList.length with
    | [] => none
    | c :: cs =>
      if isPyWs c then
        match takeDotted (skipWs (c :: cs)) with
        | some (d, _) => some (String.mk d)
        | none => none
      else none
  else none

/-- Match one line against `^\s*from\s+(dotted)\s+import` and return the
captured dotted module name. -/
def lineFromImport (line : List Char) : Option String :=
  let s := skipWs line
  if listStartsWith "from".toList s then
    match s.drop 4 with
    | [] => none
    | c :: cs =>
      if isPyWs c then
        match takeDotted (skipWs (c :: cs)) with
        | some (d, rest) =>
          match rest with
          | [] => none
          | c2 :: _ =>
            if isPyWs c2 && listStartsWith "import".toList (skipWs rest) then
              some (String.mk d)
            else none
        | none => none
      else none
  else none

/-! ### Per-file analysis (analyze_single_file and helpers) -/

/-- The per-file record built by analyze_single_file. -/
structure FileInfo where
  size : Nat
  lines : Nat
  imports : List String
  exports : List String
  functions : List String
  classes : List String
  has_main : Bool
  is_config : Bool
  language : String
deriving DecidableEq

/-- The observable outcome of walking a successfully parsed Python module:
the alias names of Import nodes, the module names of ImportFrom nodes, and
the declared function and class names, each in walk order. -/
structure PyTree where
  importNames : List String
  fromModules : List String
  functionNames : List String
  classNames : List String
deriving DecidableEq

/-- detect_language: extension-based language detection. -/
def detect_language (file_path : String) : String :=
  let ext := pyLower (pySplitExt file_path).2
  if ext == ".py" || ext == ".pyi" || ext == ".pyx" then "python"
  else if ext == ".js" || ext == ".jsx" then "javascript"
  else if ext == ".ts" || ext == ".tsx" then "typescript"
  else if ext == ".go" then "go"
  else if ext == ".java" then "java"
  else if ext == ".c" || ext == ".h" then "c"
  else if ext == ".cpp" || ext == ".cc" || ext == ".cxx" then "cpp"
  else if ext == ".rs" then "rust"
  else if ext == ".rb" then "ruby"
  else if ext == ".php" then "php"
  else if ext == ".swift" then "swift"
  else if ext == ".kt" then "kotlin"
  else "unknown"

/-- is_config_file: substring indicators tested against the lower-cased
path (the source lower-cases the path but keeps Makefile and Dockerfile
capitalised, so those two indicators can never match). -/
def is_config_file (file_path : String) (_content : String) : Bool :=
  let fl := pyLower file_path
  ["config", "settings", "setup", "Makefile", "Dockerfile",
    ".json", ".yaml", ".yml", ".toml", ".ini", ".cfg",
    ".env", ".properties"].any (fun ind => strContains fl ind)

/-- analyze_python_regex: the pattern-matching fallback path for Python
files. -/
def analyze_python_regex (content : String) (fi : FileInfo) : FileInfo :=
  let lines := splitOnCharAux '\n' [] content.toList
  let imps := (lines.filterMap (lineKwDotted "import")) ++ (lines.filterMap lineFromImport)
  let funcs := lines.filterMap (lineKwIdent "def")
  let classes := lines.filterMap (lineKwIdent "class")
  { fi with
    imports := setUnionL fi.imports imps
    functions := fi.functions ++ funcs
    classes := fi.classes ++ classes
    has_main := fi.has_main
      || (strContains content "def main(" || strContains content "if __name__ == \"__main__\"") }

/-- The ast.walk extraction loop of analyze_python_file applied to a
successfully parsed module. -/
def analyze_python_ast (t : PyTree) (fi : FileInfo) : FileInfo :=
  { fi with
    imports := setUnionL (setUnionL fi.imports t.importNames) t.fromModules
    functions := fi.functions ++ t.functionNames
    has_main := fi.has_main || t.functionNames.contains "main"
    classes := fi.classes ++ t.classNames }

/-- analyze_python_file: try the ast parse; on a parse failure (the
SyntaxError the source catches) fall back to analyze_python_regex.  The
parser itself is the external ast module, passed in as an Except-valued
function; because the failure is caught, the result type is plain
FileInfo: the function cannot raise. -/
def analyze_python_file (pyParse : String → Except String PyTree)
    (content : String) (fi : FileInfo) : FileInfo :=
  match pyParse content with
  | .ok t => analyze_python_ast t fi
  | .error _ => analyze_python_regex content fi

/-- The external extraction primitives of the per-file analysis: the
Python ast parser, and the pure regex-based analyzers for the other
language families (none of which can raise). -/
structure ExtAnalyzers where
  pyParse : String → Except String PyTree
  jsAnalyze : String → FileInfo → FileInfo
  goAnalyze : String → FileInfo → FileInfo
  javaAnalyze : String → FileInfo → FileInfo
  cAnalyze : String → FileInfo → FileInfo

/-- The freshly initialised file_info record of analyze_single_file. -/
def initFileInfo (file_path content : String) : FileInfo :=
  { size := content.length
    lines := pyLineCount content
    imports := []
    exports := []
    functions := []
    classes := []
    has_main := false
    is_config := false
    language := detect_language file_path }

/-- analyze_single_file: initialise the record, dispatch on the detected
language, then set the configuration-file flag. -/
def analyze_single_file (A : ExtAnalyzers) (file_path content : String) : FileInfo :=
  let fi := initFileInfo file_path content
  let fi :=
    if fi.language == "python" then analyze_python_file A.pyParse content fi
    else if fi.language == "javascript" || fi.language == "typescript" then A.jsAnalyze content fi
    else if fi.language == "go" then A.goAnalyze content fi
    else if fi.language == "java" then A.javaAnalyze content fi
    else if fi.language == "c" || fi.language == "cpp" then A.cAnalyze content fi
    else fi
  { fi with is_config := is_config_file file_path content }

/-! ### Dependency graph (build_dependency_graph) -/

/-- The path-derived module name: slashes and backslashes become dots,
then every occurrence of ".py" is deleted. -/
def moduleNameOf (file_path : String) : String :=
  pyReplace (pyReplace (pyReplace file_path "/" ".") "\\" ".") ".py" ""

/-- The basename-derived module name: splitext of the basename. -/
def basenameStem (file_path : String) : String := (pySplitExt (pyBasename file_path)).1

/-- module_to_file: for each file in order, bind its path-derived module
name and its basename stem to the path; later bindings overwrite earlier
ones, as in a Python dict. -/
def moduleToFile (all_files : List String) : List (String × String) :=
  all_files.foldl (fun acc fp => acc ++ [(moduleNameOf fp, fp), (basenameStem fp, fp)]) []

/-- Dict lookup in module_to_file: the last binding wins. -/
def lookupMod (m : List (String × String)) (k : String) : Option String :=
  ((m.filter (fun p => p.1 == k)).getLast?).map Prod.snd

/-- The dependency targets one file contributes: resolve each of its
recorded imports through module_to_file, drop self-references, and collect
into a set. -/
def depTargets (m2f : List (String × String)) (file_path : String)
    (file_imports : List String) : List String :=
  ((file_imports.filterMap (lookupMod m2f)).filter (fun t => t ≠ file_path)).foldl setInsert []

/-- build_dependency_graph: an entry appears for a file exactly when at
least one of its imports resolves to a different file of the set. -/
def build_dependency_graph (imports : List (String × List String))
    (all_files : List String) : List (String × List String) :=
  let m2f := moduleToFile all_files
  (imports.map (fun pr => (pr.1, depTargets m2f pr.1 pr.2))).filter (fun pr => ¬ pr.2.isEmpty)

/-- Edge test on the association-list dependency graph. -/
def hasEdge (g : List (String × List String)) (a b : String) : Bool :=
  g.any (fun pr => pr.1 == a && pr.2.contains b)

/-! ### Entry points, core modules, directory structure, patterns -/

/-- The canonical entry-point basenames of identify_entry_points. -/
def entryNames : List String :=
  ["main.py", "app.py", "server.py", "index.js", "main.go", "main.java"]

/-- identify_entry_points: iterate the per-file records in insertion order
and keep a path on the first matching heuristic (main marker, canonical
entry basename, or large setup/package-initializer file). -/
def identify_entry_points (file_info : List (String × FileInfo)) : List String :=
  file_info.filterMap (fun pr =>
    if pr.2.has_main then some pr.1
    else
      let b := pyLower (pyBasename pr.1)
      if entryNames.contains b then some pr.1
      else if (b == "setup.py" || b == "__init__.py") && pr.2.size > 100 then some pr.1
      else none)

/-- One step of the defaultdict(int) counter: increment an existing key or
append a fresh one (first-seen order is kept). -/
def bumpCount (acc : List (String × Nat)) (k : String) : List (String × Nat) :=
  if acc.any (fun p => p.1 == k) then
    acc.map (fun p => if p.1 == k then (p.1, p.2 + 1) else p)
  else acc ++ [(k, 1)]

/-- The dependents counter of identify_core_modules: one increment per
(file, dependency) pair, keys in first-seen order. -/
def countDependents (dependencies : List (String × List String)) : List (String × Nat) :=
  dependencies.foldl (fun acc pr => pr.2.foldl bumpCount acc) []

/-- identify_core_modules: stable sort of the dependents counter by
descending count (Python sorted with reverse=True is stable), truncated to
the top 10. -/
def identify_core_modules (dependencies : List (String × List String)) : List (String × Nat) :=
  ((countDependents dependencies).mergeSort (fun a b => b.2 ≤ a.2)).take 10

/-- The directory-shape summary record. -/
structure DirStructure where
  directories : List (String × List String)
  depth : Nat
  common_dirs : List String
deriving DecidableEq

/-- Append a basename to a directory bucket, creating the bucket at the
end on first use (Python defaultdict(list)). -/
def addDirEntry (acc : List (String × List String)) (d b : String) :
    List (String × List String) :=
  if acc.any (fun p => p.1 == d) then
    acc.map (fun p => if p.1 == d then (p.1, p.2 ++ [b]) else p)
  else acc ++ [(d, [b])]

/-- The per-directory grouping of analyze_directory_structure (files with
an empty dirname are skipped). -/
def dirGroups (file_paths : List String) : List (String × List String) :=
  file_paths.foldl (fun acc fp =>
    let d := pyDirname fp
    if d ≠ "" then addDirEntry acc d (pyBasename fp) else acc) []

/-- len(path.split sep) for the depth computation. -/
def pathDepth (p : String) : Nat := (splitOnCharAux '/' [] p.toList).length

/-- Python max over the generator of path depths: raises on an empty
sequence, modelled as none. -/
def maxDepth (file_paths : List String) : Option Nat :=
  match file_paths.map pathDepth with
  | [] => none
  | x :: xs => some (xs.foldl Nat.max x)

/-- analyze_directory_structure: group by directory, take the maximum path
depth (raising on an empty file set, exactly as Python max does), and flag
directories holding more than 3 files. -/
def analyze_directory_structure (file_paths : List String) : Except String DirStructure :=
  match maxDepth file_paths with
  | none => .error "max() arg is an empty sequence"
  | some d =>
    let dirs := dirGroups file_paths
    .ok { directories := dirs
          depth := d
          common_dirs := (dirs.filter (fun pr => pr.2.length > 3)).map Prod.fst }

/-- The detected-pattern flags. -/
structure Patterns where
  mvc : Bool
  layered : Bool
  has_tests : Bool
  modular : Bool
deriving DecidableEq

/-- The single-quote character, used to render Python str(dict_keys(...)). -/
def sglQuote : String := (Char.ofNat 39).toString

/-- Python str(directories.keys()), the string the mvc/layered substring
tests run over. -/
def pyKeysStr (keys : List String) : String :=
  "dict_keys([" ++ String.intercalate ", " (keys.map (fun k => sglQuote ++ k ++ sglQuote)) ++ "])"

/-- detect_patterns: the fixed substring rule set over directory names. -/
def detect_patterns (dirs : DirStructure) : Patterns :=
  let keys := dirs.directories.map Prod.fst
  let ks := pyLower (pyKeysStr keys)
  { mvc := ["models", "views", "controllers"].any (fun d => strContains ks d)
    layered := ["service", "repository", "controller", "entity"].any (fun d => strContains ks d)
    has_tests := keys.any (fun d => strContains (pyLower d) "test")
    modular := dirs.directories.length > 3 }

/-- Counter() over file extensions. -/
def countExt (file_paths : List String) : List (String × Nat) :=
  file_paths.foldl (fun acc p => bumpCount acc (pySplitExt p).2) []

/-- The aggregate result record of analyze_file_structure. -/
structure AnalysisResult where
  file_info : List (String × FileInfo)
  file_types : List (String × Nat)
  imports : List (String × List String)
  exports : List (String × List String)
  dependencies : List (String × List String)
  entry_points : List String
  core_modules : List (String × Nat)
  directory_structure : DirStructure
  patterns : Patterns

/-- analyze_file_structure: per-file analysis, dependency graph, entry
points, core modules, directory shape (the lone raising step, on an empty
input) and pattern detection. -/
def analyze_file_structure (A : ExtAnalyzers) (files : List (String × String)) :
    Except String AnalysisResult :=
  let file_info := files.map (fun pr => (pr.1, analyze_single_file A pr.1 pr.2))
  let keys := files.map Prod.fst
  let imports := file_info.filterMap
    (fun pr => if pr.2.imports.isEmpty then none else some (pr.1, pr.2.imports))
  let exports := file_info.filterMap
    (fun pr => if pr.2.exports.isEmpty then none else some (pr.1, pr.2.exports))
  let dependencies := build_dependency_graph imports keys
  match analyze_directory_structure keys with
  | .error e => .error e
  | .ok dirs =>
    .ok { file_info := file_info
          file_types := countExt keys
          imports := imports
          exports := exports
          dependencies := dependencies
          entry_points := identify_entry_points file_info
          core_modules := identify_core_modules dependencies
          directory_structure := dirs
          patterns := detect_patterns dirs }

/-! ### Reasoning-backed stages (src/nodes) -/

/-- One entry of the parsed chapter_order list: a YAML integer or any
other YAML value (the source filters with isinstance(idx, int)). -/
inductive YamlEntry where
  | int (i : Int)
  | other
deriving DecidableEq

/-- The shape of the parsed OrderChapters response. -/
inductive OrderResponse where
  | missingKey
  | notList
  | order (xs : List YamlEntry)
deriving DecidableEq

/-- The valid-index filter of OrderChapters.exec: keep integer entries in
[0, number of abstractions), preserving order and duplicates. -/
def validChapterIndices (n : Nat) (xs : List YamlEntry) : List Int :=
  xs.filterMap (fun e =>
    match e with
    | .int i => if 0 ≤ i ∧ i < (n : Int) then some i else none
    | .other => none)

/-- OrderChapters.exec from the parsed response on: missing key and
non-list chapter_order raise; otherwise invalid indices are filtered out
and the identity order is substituted only when nothing survives. -/
def orderChaptersExec (n : Nat) (r : OrderResponse) : Except String (List Int) :=
  match r with
  | .missingKey => .error "Invalid response format - missing chapter_order"
  | .notList => .error "chapter_order must be a list"
  | .order xs =>
    let valid := validChapterIndices n xs
    if valid.isEmpty then .ok ((List.range n).map Int.ofNat) else .ok valid

/-- The stored chapter order as the amended claim describes it: the
in-range integer entries of the response in order (duplicates and
omissions retained), or the identity order 0..N-1 when no entry survives. -/
def chapterOrderSpec (n : Nat) (xs : List YamlEntry) : List Int :=
  let kept := validChapterIndices n xs
  if kept = [] then (List.range n).map Int.ofNat else kept

/-- One entry of the parsed core_files list: either skipped (not a dict,
or lacking an index key) or carrying an integer index. -/
inductive CoreItem where
  | noIndex
  | idx (i : Int)
deriving DecidableEq

/-- The shape of the parsed IdentifyCore response. -/
inductive CoreResponse where
  | invalid
  | files (items : List CoreItem)
deriving DecidableEq

/-- IdentifyCore.exec from the parsed response on: a missing core_files
key raises; out-of-range indices are silently dropped. -/
def identifyCoreExec (numFiles : Nat) (r : CoreResponse) : Except String (List Int) :=
  match r with
  | .invalid => .error "LLM response missing core_files"
  | .files items =>
    .ok (items.filterMap (fun it =>
      match it with
      | .noIndex => none
      | .idx i => if 0 ≤ i ∧ i < (numFiles : Int) then some i else none))

/-- Modelled from the spec: the Reasoning Adapter (utils/call_llm.py) is
not under src/.  Per spec sections 4.2 and 6 the cache toggle is optional
and caching is the normal mode, so a call that passes no cache-allowed
flag runs with the adapter default of caching enabled. -/
def callLlmDefaultUseCache : Bool := true

/-- The cache-allowed flag AnalyzeStructure.exec passes to the adapter. -/
def analyzeStructureCacheFlag (use_cache : Bool) (cur_retry : Nat) : Bool :=
  use_cache && (cur_retry == 0)

/-- The cache-allowed flag IdentifyCore.exec passes to the adapter. -/
def identifyCoreCacheFlag (use_cache : Bool) (cur_retry : Nat) : Bool :=
  use_cache && (cur_retry == 0)

/-- The cache-allowed flag effective for the OrderChapters.exec adapter
call: the source passes no flag at all, so the adapter default applies on
every attempt, whatever the run toggle and attempt counter are. -/
def orderChaptersCacheFlag (_use_cache : Bool) (_cur_retry : Nat) : Bool :=
  callLlmDefaultUseCache

/-- FetchRepo.exec applied to the file mapping the Source Provider
returned: zero files raise the explicit empty-result failure. -/
def fetchRepoExec (provider_files : List (String × String)) :
    Except String (List (String × String)) :=
  if provider_files.length == 0 then .error "Failed to fetch files"
  else .ok provider_files

/-- The slice of the shared context the fetch stage writes. -/
structure SharedCtx where
  files : Option (List (String × String))
deriving DecidableEq

/-- Running the fetch stage: the post step committing the files to the
shared context happens only when exec succeeds, so a failing exec leaves
nothing committed. -/
def runFetchRepo (provider_files : List (String × String)) (shared : SharedCtx) :
    Except String SharedCtx :=
  match fetchRepoExec provider_files with
  | .error e => .error e
  | .ok fs => .ok { shared with files := some fs }

/-- A concrete analyzer bundle for evaluating the pipeline on sample
inputs: a parser that always fails, and identity extractors for the
regex-only languages. -/
def sampleAnalyzers : ExtAnalyzers :=
  { pyParse := fun _ => .error "invalid syntax"
    jsAnalyze := fun _ fi => fi
    goAnalyze := fun _ fi => fi
    javaAnalyze := fun _ fi => fi
    cAnalyze := fun _ fi => fi }

/-! ### Helper lemmas -/

theorem mem_validChapterIndices {n : Nat} {xs : List YamlEntry} {i : Int}
    (hi : i ∈ validChapterIndices n xs) : 0 ≤ i ∧ i < (n : Int) := by
  simp only [validChapterIndices, List.mem_filterMap] at hi
  obtain ⟨e, -, he⟩ := hi
  cases e with
  | int j =>
    by_cases h : 0 ≤ j ∧ j < (n : Int)
    · simp only [if_pos h, Option.some.injEq] at he
      omega
    · simp [if_neg h] at he
  | other => simp at he

theorem mem_identity_order {n : Nat} {i : Int}
    (hi : i ∈ (List.range n).map Int.ofNat) : 0 ≤ i ∧ i < (n : Int) := by
  simp only [List.mem_map, List.mem_range] at hi
  obtain ⟨k, hk, rfl⟩ := hi
  simp only [Int.ofNat_eq_natCast]
  omega

/-! ### C1: chapter order, permutation-or-identity -/

/-- C1 counterexample: with 2 abstractions, the parsed chapter_order
[0, 0] is stored as [0, 0], which is neither a permutation of 0..1 nor the
identity order, refuting the claim that a non-permutation is always
replaced by the identity. -/
theorem c1_counterexample :
    orderChaptersExec 2 (OrderResponse.order [YamlEntry.int 0, YamlEntry.int 0])
        = Except.ok [0, 0]
    ∧ ¬ List.Perm [(0 : Int), 0] ((List.range 2).map Int.ofNat)
    ∧ [(0 : Int), 0] ≠ (List.range 2).map Int.ofNat := by
  refine ⟨rfl, by decide, by decide⟩

/-- C1 (amended): the stage stores exactly the sublist of in-range integer
entries of the returned chapter_order (order, duplicates and omissions
kept), substituting the identity order 0..N-1 only when that sublist is
empty; every stored entry lies in 0..N-1, but the stored list need not be
a permutation. -/
theorem c1_amended (n : Nat) (xs : List YamlEntry) :
    orderChaptersExec n (OrderResponse.order xs) = Except.ok (chapterOrderSpec n xs)
    ∧ ∀ i ∈ chapterOrderSpec n xs, 0 ≤ i ∧ i < (n : Int) := by
  constructor
  · simp only [orderChaptersExec, chapterOrderSpec]
    by_cases h : validChapterIndices n xs = [] <;>
      simp [h, List.isEmpty_iff]
  · intro i hi
    simp only [chapterOrderSpec] at hi
    by_cases h : validChapterIndices n xs = []
    · rw [if_pos h] at hi
      exact mem_identity_order hi
    · rw [if_neg h] at hi
      exact mem_validChapterIndices hi

/-- C1 witness: the amended theorem applied to the counterexample input. -/
theorem c1_witness : 0 ≤ (0 : Int) ∧ (0 : Int) < ((2 : Nat) : Int) :=
  (c1_amended 2 [YamlEntry.int 0, YamlEntry.int 0]).2 0 (by decide)

/-! ### C4: out-of-range indices in reasoning responses -/

/-- C4 counterexample: IdentifyCore accepts a response whose only
core_files entry has the out-of-range index 5 (2 files exist), returning
ok with the empty selection instead of raising; OrderChapters likewise
accepts a response containing the out-of-range index 7 (3 abstractions),
silently dropping it. -/
theorem c4_counterexample :
    identifyCoreExec 2 (CoreResponse.files [CoreItem.idx 5]) = Except.ok []
    ∧ orderChaptersExec 3 (OrderResponse.order [YamlEntry.int 0, YamlEntry.int 7])
        = Except.ok [0] := by
  exact ⟨rfl, rfl⟩

/-- C4 (amended): out-of-range numeric indices in a parsed response are
silently filtered out — they never appear in the accepted result and do
not raise; a contract violation is raised only when the response is
missing its required key (core_files / chapter_order) or chapter_order is
not a list. -/
theorem c4_amended (n m : Nat) (items : List CoreItem) (xs : List YamlEntry) :
    (∀ ys, identifyCoreExec n (CoreResponse.files items) = Except.ok ys →
      ∀ i ∈ ys, 0 ≤ i ∧ i < (n : Int))
    ∧ identifyCoreExec n CoreResponse.invalid
        = Except.error "LLM response missing core_files"
    ∧ (∀ ys, orderChaptersExec m (OrderResponse.order xs) = Except.ok ys →
      ∀ i ∈ ys, 0 ≤ i ∧ i < (m : Int))
    ∧ orderChaptersExec m OrderResponse.missingKey
        = Except.error "Invalid response format - missing chapter_order"
    ∧ orderChaptersExec m OrderResponse.notList
        = Except.error "chapter_order must be a list" := by
  refine ⟨?_, rfl, ?_, rfl, rfl⟩
  · intro ys hys i hi
    simp only [identifyCoreExec, Except.ok.injEq] at hys
    subst hys
    simp only [List.mem_filterMap] at hi
    obtain ⟨it, -, hit⟩ := hi
    cases it with
    | noIndex => simp at hit
    | idx j =>
      by_cases h : 0 ≤ j ∧ j < (n : Int)
      · simp only [if_pos h, Option.some.injEq] at hit
        omega
      · simp [if_neg h] at hit
  · intro ys hys i hi
    simp only [orderChaptersExec] at hys
    by_cases h : validChapterIndices m xs = []
    · rw [if_pos (by simp [h, List.isEmpty_iff])] at hys
      cases hys
      exact mem_identity_order hi
    · rw [if_neg (by simp [List.isEmpty_iff, h])] at hys
      cases hys
      exact mem_validChapterIndices hi

/-- C4 witness: the amended theorem applied to a concrete accepted
response containing one in-range and one out-of-range index. -/
theorem c4_witness : 0 ≤ (1 : Int) ∧ (1 : Int) < ((2 : Nat) : Int) :=
  (c4_amended 2 0 [CoreItem.idx 1, CoreItem.idx 5] []).1 [1] rfl 1 (by decide)

/-! ### C6: cache bypass on retry attempts -/

/-- C6 counterexample: on the second attempt (attempt counter 1) the
OrderChapters adapter call still runs with caching enabled — the source
passes no cache flag at that call site — even when the run toggle is off,
refuting the claim for that stage. -/
theorem c6_counterexample :
    orderChaptersCacheFlag false 1 = true ∧ orderChaptersCacheFlag true 1 = true :=
  ⟨rfl, rfl⟩

/-- C6 (amended): AnalyzeStructure and IdentifyCore force the cache flag
to false on every attempt after the first, whatever the run toggle is;
OrderChapters passes no flag, so its call always carries the adapter
default, independent of toggle and attempt counter. -/
theorem c6_amended (use_cache : Bool) (cur_retry : Nat) (h : 1 ≤ cur_retry) :
    analyzeStructureCacheFlag use_cache cur_retry = false
    ∧ identifyCoreCacheFlag use_cache cur_retry = false
    ∧ orderChaptersCacheFlag use_cache cur_retry = callLlmDefaultUseCache := by
  have hz : (cur_retry == 0) = false := by
    simp only [beq_eq_false_iff_ne, ne_eq]
    omega
  refine ⟨?_, ?_, rfl⟩ <;>
    simp [analyzeStructureCacheFlag, identifyCoreCacheFlag, hz]

/-- C6 witness: the amended theorem at toggle on, attempt counter 1. -/
theorem c6_witness :
    analyzeStructureCacheFlag true 1 = false
    ∧ identifyCoreCacheFlag true 1 = false
    ∧ orderChaptersCacheFlag true 1 = callLlmDefaultUseCache :=
  c6_amended true 1 (by decide)

/-! ### C7: zero files from the Source Provider -/

/-- C7: with zero files from the Source Provider the fetch stage raises
the explicit empty-result failure, so the run fails at the fetch stage and
nothing is committed to the shared context. -/
theorem c7_empty_fetch_fails (shared : SharedCtx) :
    runFetchRepo [] shared = Except.error "Failed to fetch files"
    ∧ (runFetchRepo [] shared).isOk = false :=
  ⟨rfl, rfl⟩

/-- C7 witness: the theorem at the empty shared context. -/
theorem c7_witness :
    runFetchRepo [] { files := none } = Except.error "Failed to fetch files" :=
  (c7_empty_fetch_fails { files := none }).1

/-! ### Dependency-graph helper lemmas -/

theorem mem_foldl_setInsert (xs : List String) (acc : List String) (x : String) :
    x ∈ xs.foldl setInsert acc ↔ x ∈ acc ∨ x ∈ xs := by
  induction xs generalizing acc with
  | nil => simp
  | cons y ys ih =>
    simp only [List.foldl_cons, ih, setInsert, List.mem_cons]
    by_cases h : y ∈ acc
    · simp only [if_pos h]
      constructor
      · rintro (hx | hx)
        · exact Or.inl hx
        · exact Or.inr (Or.inr hx)
      · rintro (hx | rfl | hx)
        · exact Or.inl hx
        · exact Or.inl h
        · exact Or.inr hx
    · simp only [if_neg h, List.mem_append, List.mem_singleton]
      tauto

theorem mem_moduleToFile_aux (fs : List String) (acc : List (String × String))
    (p : String × String)
    (hp : p ∈ fs.foldl
      (fun acc fp => acc ++ [(moduleNameOf fp, fp), (basenameStem fp, fp)]) acc) :
    p ∈ acc ∨ p.2 ∈ fs := by
  induction fs generalizing acc with
  | nil => exact Or.inl hp
  | cons f fs ih =>
    simp only [List.foldl_cons] at hp
    rcases ih _ hp with h | h
    · simp only [List.mem_append, List.mem_cons, List.not_mem_nil] at h
      rcases h with h | h
      · exact Or.inl h
      · rcases h with rfl | h
        · exact Or.inr (by simp)
        · rcases h with rfl | h
          · exact Or.inr (by simp)
          · simp at h
    · exact Or.inr (List.mem_cons_of_mem _ h)

theorem lookupMod_mem {m : List (String × String)} {k v : String}
    (h : lookupMod m k = some v) : ∃ p ∈ m, p.2 = v := by
  unfold lookupMod at h
  rw [Option.map_eq_some'] at h
  obtain ⟨p, hp, rfl⟩ := h
  exact ⟨p, List.mem_filter.mp (List.mem_of_getLast?_eq_some hp) |>.1, rfl⟩

theorem lookup_moduleToFile_mem {fs : List String} {k v : String}
    (h : lookupMod (moduleToFile fs) k = some v) : v ∈ fs := by
  obtain ⟨p, hp, rfl⟩ := lookupMod_mem h
  rcases mem_moduleToFile_aux fs [] p hp with h | h
  · simp at h
  · exact h

theorem mem_depTargets {m2f : List (String × String)} {fp : String}
    {ims : List String} {b : String} :
    b ∈ depTargets m2f fp ims ↔ b ≠ fp ∧ ∃ n ∈ ims, lookupMod m2f n = some b := by
  unfold depTargets
  rw [mem_foldl_setInsert]
  simp only [List.not_mem_nil, false_or, List.mem_filter, List.mem_filterMap,
    decide_eq_true_eq]
  tauto

theorem hasEdge_build_iff {imports : List (String × List String)}
    {all_files : List String} {x y : String} :
    hasEdge (build_dependency_graph imports all_files) x y = true
      ↔ ∃ ims, (x, ims) ∈ imports ∧ y ∈ depTargets (moduleToFile all_files) x ims := by
  unfold hasEdge build_dependency_graph
  simp only [List.any_eq_true, List.mem_filter, List.mem_map, Bool.and_eq_true,
    beq_iff_eq, List.contains_eq_any_beq, decide_eq_true_eq]
  constructor
  · rintro ⟨pr, ⟨⟨⟨q1, q2⟩, hq, rfl⟩, -⟩, hx, hy⟩
    dsimp only at hx hy
    subst hx
    refine ⟨q2, hq, ?_⟩
    obtain ⟨t, ht, rfl⟩ := hy
    exact ht
  · rintro ⟨ims, hin, hy⟩
    refine ⟨(x, depTargets (moduleToFile all_files) x ims),
      ⟨⟨(x, ims), hin, rfl⟩, ?_⟩, rfl, ?_⟩
    · simp only [List.isEmpty_iff]
      exact List.ne_nil_of_mem hy
    · exact ⟨y, hy, rfl⟩

/-! ### C2: no self-edges, targets are real files -/

/-- C2: every edge of the dependency graph points at a key of the input
file set different from its source; in particular the graph has no
self-edge. -/
theorem c2_graph_edges_safe (imports : List (String × List String))
    (all_files : List String) (a b : String)
    (h : hasEdge (build_dependency_graph imports all_files) a b = true) :
    b ≠ a ∧ b ∈ all_files := by
  obtain ⟨ims, -, hmem⟩ := hasEdge_build_iff.mp h
  rw [mem_depTargets] at hmem
  obtain ⟨hne, n, -, hl⟩ := hmem
  exact ⟨hne, lookup_moduleToFile_mem hl⟩

/-- C2 witness: the theorem applied to a concrete two-file graph with one
resolved edge. -/
theorem c2_witness :
    "utils/helper.py" ≠ "main.py" ∧ "utils/helper.py" ∈ ["main.py", "utils/helper.py"] :=
  c2_graph_edges_safe [("main.py", ["utils.helper"])] ["main.py", "utils/helper.py"]
    "main.py" "utils/helper.py" (by decide)

/-! ### C8: asymmetric two-file import -/

/-- C8: in a two-file set where some import of A resolves to B under the
candidate-name mapping and no import of B resolves to A, the graph holds
edge A→B and not edge B→A. -/
theorem c8_two_file_asymmetric_edge (a b : String) (imsA imsB : List String)
    (hab : a ≠ b)
    (hA : ∃ n ∈ imsA, lookupMod (moduleToFile [a, b]) n = some b)
    (hB : ∀ n ∈ imsB, ¬ lookupMod (moduleToFile [a, b]) n = some a) :
    hasEdge (build_dependency_graph [(a, imsA), (b, imsB)] [a, b]) a b = true
    ∧ hasEdge (build_dependency_graph [(a, imsA), (b, imsB)] [a, b]) b a = false := by
  constructor
  · exact hasEdge_build_iff.mpr
      ⟨imsA, by simp, mem_depTargets.mpr ⟨Ne.symm hab, hA⟩⟩
  · rw [← Bool.not_eq_true]
    intro h
    obtain ⟨ims, hin, hd⟩ := hasEdge_build_iff.mp h
    simp only [List.mem_cons, List.not_mem_nil, or_false, Prod.mk.injEq] at hin
    rcases hin with ⟨rfl, -⟩ | ⟨-, rfl⟩
    · exact hab rfl
    · obtain ⟨-, n, hn, hl⟩ := mem_depTargets.mp hd
      exact hB n hn hl

/-- C8 witness: the theorem at two concrete files where main.py imports
utils.helper and the helper imports only the external os module. -/
theorem c8_witness :
    hasEdge (build_dependency_graph [("main.py", ["utils.helper"]), ("utils/helper.py", ["os"])]
        ["main.py", "utils/helper.py"]) "main.py" "utils/helper.py" = true
    ∧ hasEdge (build_dependency_graph [("main.py", ["utils.helper"]), ("utils/helper.py", ["os"])]
        ["main.py", "utils/helper.py"]) "utils/helper.py" "main.py" = false :=
  c8_two_file_asymmetric_edge "main.py" "utils/helper.py" ["utils.helper"] ["os"]
    (by decide) ⟨"utils.helper", by decide, by decide⟩ (by decide)

/-! ### C5: parse failure falls back to the regex path -/

/-- C5: for a Python file whose precise parse fails, per-file extraction
returns the pattern-matching fallback result (with the config flag set
afterwards) — the failure is caught, and since analyze_single_file is a
total function into FileInfo, no exception propagates. -/
theorem c5_parse_failure_falls_back (A : ExtAnalyzers) (path content e : String)
    (hlang : detect_language path = "python")
    (hfail : A.pyParse content = Except.error e) :
    analyze_single_file A path content =
      { analyze_python_regex content (initFileInfo path content) with
        is_config := is_config_file path content } := by
  simp [analyze_single_file, initFileInfo, hlang, analyze_python_file, hfail]

/-- C5 witness: the theorem at a file whose content the sample parser
rejects. -/
theorem c5_witness :
    analyze_single_file sampleAnalyzers "broken.py" "def f(:" =
      { analyze_python_regex "def f(:" (initFileInfo "broken.py" "def f(:") with
        is_config := is_config_file "broken.py" "def f(:" } :=
  c5_parse_failure_falls_back sampleAnalyzers "broken.py" "def f(:" "invalid syntax"
    (by decide) rfl

/-! ### C9: the analyzer on the empty file mapping -/

/-- C9: on the empty file mapping the structural analyzer produces no
result — the directory-shape step takes a Python max over an empty
sequence of depths and raises — while any non-empty mapping yields a
result, so the analyzer is total exactly under the non-emptiness
precondition. -/
theorem c9_empty_input_raises (A : ExtAnalyzers) :
    (analyze_file_structure A []).isOk = false
    ∧ analyze_file_structure A [] = Except.error "max() arg is an empty sequence"
    ∧ ∀ files : List (String × String), files ≠ [] →
        (analyze_file_structure A files).isOk = true := by
  refine ⟨rfl, rfl, ?_⟩
  intro files hfiles
  match files with
  | [] => exact absurd rfl hfiles
  | pc :: rest =>
    simp [analyze_file_structure, analyze_directory_structure, maxDepth, Except.isOk,
      Except.toBool]

/-- C9 witness: the theorem evaluated at the empty mapping and at a
concrete one-file mapping. -/
theorem c9_witness :
    (analyze_file_structure sampleAnalyzers []).isOk = false
    ∧ (analyze_file_structure sampleAnalyzers [("main.py", "import os")]).isOk = true :=
  ⟨(c9_empty_input_raises sampleAnalyzers).1,
   (c9_empty_input_raises sampleAnalyzers).2.2 [("main.py", "import os")]
     (List.cons_ne_nil _ _)⟩

/-! ### C10: entry points are listed at most once -/

theorem filterMap_sublist_map {α β : Type} (f : α → Option β) (g : α → β)
    (hf : ∀ a b, f a = some b → b = g a) (l : List α) :
    (l.filterMap f).Sublist (l.map g) := by
  induction l with
  | nil => simp
  | cons a as ih =>
    rw [List.filterMap_cons, List.map_cons]
    cases h : f a with
    | none => exact ih.cons _
    | some b => rw [hf a b h]; exact ih.cons₂ _

/-- C10: with distinct file paths (the keys of the per-file dict), the
entry-point list contains each path at most once: the source appends a
path on the first matching heuristic only, so the list is duplicate-free
even when a file satisfies several qualifying conditions. -/
theorem c10_entry_points_nodup (file_info : List (String × FileInfo))
    (h : (file_info.map Prod.fst).Nodup) :
    (identify_entry_points file_info).Nodup := by
  refine List.Nodup.sublist ?_ h
  unfold identify_entry_points
  apply filterMap_sublist_map
  intro pr b hb
  dsimp only at hb
  split at hb
  · exact (Option.some.injEq _ _ ▸ hb).symm
  · split at hb
    · exact (Option.some.injEq _ _ ▸ hb).symm
    · split at hb
      · exact (Option.some.injEq _ _ ▸ hb).symm
      · exact absurd hb (by simp)

/-- C10 witness: the theorem at a concrete two-file record where the
first file qualifies both through its main marker and through its
canonical basename. -/
theorem c10_witness :
    (identify_entry_points
      [("main.py", { initFileInfo "main.py" "" with has_main := true }),
       ("pkg/__init__.py", { initFileInfo "pkg/__init__.py" "" with size := 200 })]).Nodup :=
  c10_entry_points_nodup _ (by decide)

/-! ### Core-module ranking helper lemmas -/

theorem counterLe_trans (a b c : String × Nat)
    (h1 : (decide (b.2 ≤ a.2) : Bool) = true) (h2 : (decide (c.2 ≤ b.2) : Bool) = true) :
    (decide (c.2 ≤ a.2) : Bool) = true := by
  simp only [decide_eq_true_eq] at h1 h2 ⊢
  omega

theorem counterLe_total (a b : String × Nat) :
    (decide (b.2 ≤ a.2) || decide (a.2 ≤ b.2)) = true := by
  simp only [Bool.or_eq_true, decide_eq_true_eq]
  omega

theorem mergeSort_counter_filter (l : List (String × Nat)) (c : Nat) :
    (l.mergeSort (fun a b => b.2 ≤ a.2)).filter (fun p => p.2 == c)
      = l.filter (fun p => p.2 == c) := by
  have hsub : (l.filter (fun p => p.2 == c)).Sublist l := List.filter_sublist l
  have hpw : (l.filter (fun p => p.2 == c)).Pairwise
      (fun a b : String × Nat => decide (b.2 ≤ a.2) = true) := by
    apply List.pairwise_of_forall_mem_list
    intro a ha b hb
    have ha2 := (List.mem_filter.mp ha).2
    have hb2 := (List.mem_filter.mp hb).2
    simp only [beq_iff_eq] at ha2 hb2
    simp only [decide_eq_true_eq, ha2, hb2, le_refl]
  have hsl : (l.filter (fun p => p.2 == c)).Sublist
      (l.mergeSort (fun a b => b.2 ≤ a.2)) :=
    List.sublist_mergeSort counterLe_trans counterLe_total hpw hsub
  have hperm := (List.mergeSort_perm l (fun a b => b.2 ≤ a.2)).filter
    (fun p => p.2 == c)
  have hdf : (l.filter (fun p => p.2 == c)).filter (fun p => p.2 == c)
      = l.filter (fun p => p.2 == c) :=
    List.filter_eq_self.mpr (fun a ha => (List.mem_filter.mp ha).2)
  have hsl2 := hsl.filter (fun p => p.2 == c)
  rw [hdf] at hsl2
  exact (hsl2.eq_of_length hperm.length_eq.symm).symm

theorem filter_take_exists {α : Type} (p : α → Bool) :
    ∀ (l : List α) (n : Nat), ∃ k, (l.take n).filter p = (l.filter p).take k := by
  intro l
  induction l with
  | nil => intro n; exact ⟨0, by simp⟩
  | cons a as ih =>
    intro n
    cases n with
    | zero => exact ⟨0, by simp⟩
    | succ n =>
      obtain ⟨k, hk⟩ := ih n
      by_cases h : p a
      · exact ⟨k + 1, by simp [h, hk]⟩
      · exact ⟨k, by simp [h, hk]⟩

theorem count_eq_one_of_nodup_mem {x : String} {l : List String}
    (hnd : l.Nodup) (hx : x ∈ l) : List.count x l = 1 := by
  induction l with
  | nil => cases hx
  | cons a as ih =>
    rw [List.count_cons]
    rcases List.mem_cons.mp hx with rfl | hxs
    · rw [List.count_eq_zero.mpr (List.nodup_cons.mp hnd).1]
      simp
    · have hne : ¬ (x == a) = true := by
        simp only [beq_iff_eq]
        rintro rfl
        exact (List.nodup_cons.mp hnd).1 hxs
      rw [ih (List.nodup_cons.mp hnd).2 hxs]
      have hax : ¬ a = x := fun h => (List.nodup_cons.mp hnd).1 (h ▸ hxs)
      simp [hne, hax]

theorem counter_spec (ks : List String) :
    (((ks.foldl bumpCount []).map Prod.fst).Nodup)
    ∧ (∀ x ∈ ks, x ∈ (ks.foldl bumpCount []).map Prod.fst)
    ∧ (∀ p ∈ ks.foldl bumpCount [], p.2 = List.count p.1 ks) := by
  induction ks using List.reverseRecOn with
  | nil => exact ⟨List.nodup_nil, by simp, by simp⟩
  | append_singleton ks k ih =>
    obtain ⟨hnd, hcomp, hval⟩ := ih
    rw [List.foldl_append, List.foldl_cons, List.foldl_nil]
    by_cases hk : (ks.foldl bumpCount []).any (fun p => p.1 == k)
    · rw [bumpCount, if_pos hk]
      have hfst : (Prod.fst ∘ fun p : String × Nat => if p.1 == k then (p.1, p.2 + 1) else p)
          = Prod.fst := by
        funext p
        by_cases h : p.1 = k <;> simp [h]
      refine ⟨?_, ?_, ?_⟩
      · rw [List.map_map, hfst]
        exact hnd
      · intro x hx
        rw [List.map_map, hfst]
        rcases List.mem_append.mp hx with hx | hx
        · exact hcomp x hx
        · rw [List.mem_singleton] at hx
          subst hx
          rcases List.any_eq_true.mp hk with ⟨p, hp, hpk⟩
          rw [beq_iff_eq] at hpk
          exact hpk ▸ List.mem_map_of_mem Prod.fst hp
      · intro p hp
        rcases List.mem_map.mp hp with ⟨q, hq, rfl⟩
        by_cases hqk : (q.1 == k) = true
        · rw [if_pos hqk]
          rw [beq_iff_eq] at hqk
          simp only
          rw [List.count_append, hval q hq, hqk]
          simp [List.count_cons]
        · rw [if_neg hqk]
          rw [List.count_append, hval q hq]
          have hqk2 : q.1 ≠ k := by simpa using hqk
          have hz : List.count q.1 [k] = 0 := by simp [List.count_cons, hqk2]
          omega
    · rw [bumpCount, if_neg hk]
      have hknotin : k ∉ (ks.foldl bumpCount []).map Prod.fst := by
        intro hmem
        rcases List.mem_map.mp hmem with ⟨p, hp, hpk⟩
        exact hk (List.any_eq_true.mpr ⟨p, hp, by rw [beq_iff_eq]; exact hpk⟩)
      refine ⟨?_, ?_, ?_⟩
      · rw [List.map_append]
        rw [List.nodup_append]
        refine ⟨hnd, List.nodup_singleton k, fun x hx hxk => ?_⟩
        rw [List.map_cons, List.map_nil, List.mem_singleton] at hxk
        subst hxk
        exact hknotin hx
      · intro x hx
        rw [List.map_append]
        rcases List.mem_append.mp hx with hx | hx
        · exact List.mem_append_left _ (hcomp x hx)
        · rw [List.mem_singleton] at hx
          subst hx
          apply List.mem_append_right
          simp
      · intro p hp
        rcases List.mem_append.mp hp with hp | hp
        · have hne : p.1 ≠ k :=
            fun h => hknotin (h ▸ List.mem_map_of_mem Prod.fst hp)
          have hz : List.count p.1 [k] = 0 := by simp [List.count_cons, hne]
          rw [List.count_append, hval p hp, hz]
          omega
        · rw [List.mem_singleton] at hp
          subst hp
          simp only
          have hkks : k ∉ ks := fun h => hknotin (hcomp k h)
          rw [List.count_append, List.count_eq_zero.mpr hkks]
          simp [List.count_cons]

theorem foldl_bump_flat (deps : List (String × List String)) (acc : List (String × Nat)) :
    deps.foldl (fun acc pr => pr.2.foldl bumpCount acc) acc
      = (deps.flatMap (fun pr => pr.2)).foldl bumpCount acc := by
  induction deps generalizing acc with
  | nil => rfl
  | cons d ds ih =>
    rw [List.foldl_cons, List.flatMap_cons, List.foldl_append]
    exact ih _

theorem count_flat_eq_countP (deps : List (String × List String)) (x : String)
    (h2 : ∀ pr ∈ deps, pr.2.Nodup) :
    List.count x (deps.flatMap (fun pr => pr.2))
      = deps.countP (fun pr => pr.2.contains x) := by
  induction deps with
  | nil => rfl
  | cons d ds ih =>
    rw [List.flatMap_cons, List.count_append, List.countP_cons]
    have hd := h2 d (List.mem_cons_self d ds)
    have ihv := ih (fun pr hpr => h2 pr (List.mem_cons_of_mem _ hpr))
    by_cases hx : x ∈ d.2
    · rw [count_eq_one_of_nodup_mem hd hx, ihv]
      have hc : (d.2.contains x) = true := by simp [List.contains, hx]
      rw [hc]
      simp [Nat.add_comm]
    · rw [List.count_eq_zero.mpr hx, ihv]
      have hc : (d.2.contains x) = false := by simp [List.contains, hx]
      rw [hc]
      simp

/-! ### C3: core-module ranking -/

/-- C3: the ranking has at most 10 entries; counts are non-increasing
along it; for each count value the retained entries are an order-preserving
prefix of the first-seen-ordered counter, so equal counts keep their
first-seen order through the stable sort and the truncation; and, whenever
the per-file dependency sets are duplicate-free, each entry carries the
number of files holding an edge into it. -/
theorem c3_core_modules (dependencies : List (String × List String)) :
    (identify_core_modules dependencies).length ≤ 10
    ∧ (identify_core_modules dependencies).Pairwise (fun a b => b.2 ≤ a.2)
    ∧ (∀ c : Nat, ∃ k, (identify_core_modules dependencies).filter (fun p => p.2 == c)
        = ((countDependents dependencies).filter (fun p => p.2 == c)).take k)
    ∧ (∀ (_ : ∀ pr ∈ dependencies, pr.2.Nodup),
        ∀ p ∈ identify_core_modules dependencies,
          p.2 = dependencies.countP (fun pr => pr.2.contains p.1)) := by
  refine ⟨?_, ?_, ?_, ?_⟩
  · exact List.length_take_le _ _
  · have hs := List.sorted_mergeSort counterLe_trans counterLe_total
      (countDependents dependencies)
    have ht := List.Pairwise.sublist
      (List.take_sublist 10 ((countDependents dependencies).mergeSort
        (fun a b => b.2 ≤ a.2))) hs
    exact ht.imp (fun h => by simpa using h)
  · intro c
    obtain ⟨k, hk⟩ := filter_take_exists (fun p : String × Nat => p.2 == c)
      ((countDependents dependencies).mergeSort (fun a b => b.2 ≤ a.2)) 10
    refine ⟨k, ?_⟩
    unfold identify_core_modules
    rw [hk, mergeSort_counter_filter]
  · intro h2 p hp
    have hp2 : p ∈ (countDependents dependencies).mergeSort (fun a b => b.2 ≤ a.2) :=
      List.Sublist.mem hp (List.take_sublist 10 _)
    have hp3 : p ∈ countDependents dependencies := List.mem_mergeSort.mp hp2
    have hp4 : p ∈ (dependencies.flatMap (fun pr => pr.2)).foldl bumpCount [] := by
      rw [← foldl_bump_flat]
      exact hp3
    have hval := (counter_spec (dependencies.flatMap (fun pr => pr.2))).2.2 p hp4
    rw [hval, count_flat_eq_countP _ _ h2]

/-- C3 witness: the theorem applied to a concrete dependency mapping whose
counter is already sorted, so the ranking evaluates explicitly. -/
theorem c3_witness :
    (2 : Nat) = [("a", ["x", "y"]), ("b", ["x"])].countP (fun pr => pr.2.contains "x") := by
  have hres : identify_core_modules [("a", ["x", "y"]), ("b", ["x"])]
      = [("x", 2), ("y", 1)] := by
    unfold identify_core_modules
    rw [List.mergeSort_of_sorted (by decide)]
    decide
  have h := (c3_core_modules [("a", ["x", "y"]), ("b", ["x"])]).2.2.2
    (by decide) ("x", 2) (by rw [hres]; decide)
  exact h
